import Mathlib

/-!
Shallow embedding of the multi-endpoint Solana RPC connection manager
(`SolanaConnectionManager`, file `src/unnamed/part_013`) together with the
parts of its collaborators that the verified properties need:

* per-endpoint health records and request statistics (`EndpointHealth`),
* the per-endpoint circuit breaker (`Circuit`),
* the manager state (`ManagerState`) holding the health map, the breaker
  map, the connection map keys, the rate-limit queue options and the
  currently selected endpoint,
* the operations `recordSuccess`, `recordFailure`,
  `switchToHealthyEndpoint`, `getConnection` (its synchronous dispatch
  decision), `getHealthyEndpoints`, `switchEndpoint` and the per-endpoint
  health probe performed by `checkEndpointsHealth`,
* a model of the `p-retry` loop used by `executeWithRetry`, and of the
  `p-queue` interval admission used for rate limiting,
* the subscription monitor's failover migration, which is described in the
  specification but absent from the sources.

JavaScript `Map`s are embedded as association lists with `Map.set`
semantics (replace the first entry with the key, append when absent) and
`Map.get` as first lookup.  JavaScript numbers used as counters or
timestamps are embedded as `Nat`; the floating-point `successRate` is
embedded as `ℚ` (exact arithmetic in place of IEEE doubles).
-/

namespace SolGuard

/-- Request statistics of one endpoint (`EndpointHealth.stats` in
`src/packages/blockchain/src/solana/connection/types.ts`). -/
structure Stats where
  totalRequests : Nat
  failedRequests : Nat
  successRate : ℚ
deriving DecidableEq

/-- Health record of one endpoint (`EndpointHealth` in the same types
file).  `lastChecked` is a timestamp; `hasError` records whether the
optional `error` field is populated. -/
structure EndpointHealth where
  url : String
  isHealthy : Bool
  lastChecked : Nat
  latency : Nat
  hasError : Bool
  stats : Stats
deriving DecidableEq

/-- Circuit-breaker entry of one endpoint
(`circuitBreakers: Map<string, { failures, lastFailure }>`). -/
structure Circuit where
  failures : Nat
  lastFailure : Nat
deriving DecidableEq

/-- A configured rate limit (`EndpointConfig.rateLimit`). -/
structure RateLimit where
  rps : Nat
  burst : Option Nat
deriving DecidableEq

/-- The options the manager passes to a `p-queue` instance
(`initializeEndpoints`, lines 112-119 of `part_013`).  `concurrency =
none` means the option is omitted, leaving the library default of
unbounded concurrency. -/
structure QueueOptions where
  interval : Nat
  intervalCap : Nat
  carryoverConcurrencyCount : Bool
  concurrency : Option Nat
deriving DecidableEq

/-- One configured endpoint; only the fields the verified operations read. -/
structure EndpointConfig where
  url : String
  rateLimit : Option RateLimit
deriving DecidableEq

/-- Manager configuration; `cbThreshold`/`cbTimeout` are the effective
circuit-breaker threshold and stale-failure decay window after defaults
are applied (`DEFAULT_CONFIG` gives 5 and 60000). -/
structure ManagerConfig where
  endpoints : List EndpointConfig
  defaultEndpoint : Option String
  maxRetries : Nat
  cbThreshold : Nat
  cbTimeout : Nat
deriving DecidableEq

/-- Initial statistics of a fresh endpoint (`initializeEndpoints`,
lines 104-108). -/
def initStats : Stats :=
  { totalRequests := 0, failedRequests := 0, successRate := 100 }

/-- Fresh health record for an endpoint (`initializeEndpoints`,
lines 99-109). -/
def initHealth (url : String) : EndpointHealth :=
  { url := url, isHealthy := true, lastChecked := 0, latency := 0,
    hasError := false, stats := initStats }

/-- `Map.set` on the health map keyed by `url`: replace the first entry
with that url, append when absent. -/
def setHealth : List EndpointHealth → EndpointHealth → List EndpointHealth
  | [], h => [h]
  | x :: xs, h => if x.url = h.url then h :: xs else x :: setHealth xs h

/-- `Map.get` on the health map: first entry with the url. -/
def getHealth (l : List EndpointHealth) (url : String) : Option EndpointHealth :=
  l.find? (fun h => h.url = url)

/-- `Map.set` on the circuit-breaker map. -/
def setBreaker : List (String × Circuit) → String → Circuit → List (String × Circuit)
  | [], u, c => [(u, c)]
  | x :: xs, u, c => if x.1 = u then (u, c) :: xs else x :: setBreaker xs u c

/-- `Map.get` on the circuit-breaker map. -/
def getBreaker (l : List (String × Circuit)) (u : String) : Option Circuit :=
  (l.find? (fun x => x.1 = u)).map (·.2)

/-- The mutable state of a `SolanaConnectionManager` (fields declared at
lines 27-34 of `part_013`).  `connections` keeps only the keys of the
`Map<string, Connection>`; the `Connection` objects themselves are
opaque network handles. -/
structure ManagerState where
  healthStatus : List EndpointHealth
  circuitBreakers : List (String × Circuit)
  connections : List String
  requestQueues : List (String × QueueOptions)
  currentEndpoint : String
deriving DecidableEq

/-- The queue options built for a rate-limited endpoint
(`initializeEndpoints`, lines 113-118): `interval: 1000`,
`intervalCap: rps`, `carryoverConcurrencyCount: true`, and `concurrency`
only when `burst` is configured. -/
def mkQueueOptions (rl : RateLimit) : QueueOptions :=
  { interval := 1000
    intervalCap := rl.rps
    carryoverConcurrencyCount := true
    concurrency := rl.burst }

/-- The state after the constructor ran `initializeEndpoints`
(lines 91-125) and selected the initial endpoint (line 40:
`defaultEndpoint || endpoints[0]?.url`). -/
def initState (cfg : ManagerConfig) : ManagerState :=
  { healthStatus := cfg.endpoints.map (fun e => initHealth e.url)
    circuitBreakers := cfg.endpoints.map (fun e => (e.url, ⟨0, 0⟩))
    connections := cfg.endpoints.map (·.url)
    requestQueues :=
      cfg.endpoints.filterMap (fun e => e.rateLimit.map (fun rl => (e.url, mkQueueOptions rl)))
    currentEndpoint := cfg.defaultEndpoint.getD ((cfg.endpoints.map (·.url)).headD "") }

/-- Statistics update performed by `recordSuccess` (lines 185-189):
increment `totalRequests`, recompute
`successRate = ((total - failed) / total) * 100`. -/
def succStats (st : Stats) : Stats :=
  let total := st.totalRequests + 1
  { st with
    totalRequests := total
    successRate := (((total : ℚ) - st.failedRequests) / total) * 100 }

/-- Statistics update performed by `recordFailure` (lines 203-208):
increment both counters, recompute the rate. -/
def failStats (st : Stats) : Stats :=
  let total := st.totalRequests + 1
  let failed := st.failedRequests + 1
  { totalRequests := total
    failedRequests := failed
    successRate := (((total : ℚ) - failed) / total) * 100 }

/-- `recordSuccess(url)` (lines 182-198): update the stats of the url's
health record when present, and reset the breaker's failure count to 0
when a breaker entry exists. -/
def recordSuccess (s : ManagerState) (url : String) : ManagerState :=
  let hs := match getHealth s.healthStatus url with
    | none => s.healthStatus
    | some h => setHealth s.healthStatus { h with stats := succStats h.stats }
  let cbs := s.circuitBreakers.map
    (fun x => if x.1 = url then (x.1, { x.2 with failures := 0 }) else x)
  { s with healthStatus := hs, circuitBreakers := cbs }

/-- The breaker counter after a failure at time `now` (lines 218-223):
reset to 0 when the previous failure is older than the decay window,
then increment. -/
def nextFailures (cbTimeout : Nat) (c : Circuit) (now : Nat) : Nat :=
  (if now - c.lastFailure > cbTimeout then 0 else c.failures) + 1

/-- `switchToHealthyEndpoint(failedUrl)` (lines 233-242): among the
health records that are healthy and not the failed url, sorted by
ascending latency (JavaScript `sort` is stable; embedded as a stable
insertion sort), select the first as the new current endpoint; when none
exists the state is unchanged. -/
def switchToHealthyEndpoint (s : ManagerState) (failedUrl : String) : ManagerState :=
  let healthyEndpoints :=
    (s.healthStatus.filter (fun h => h.isHealthy && h.url != failedUrl)).insertionSort
      (fun a b => a.latency ≤ b.latency)
  match healthyEndpoints with
  | [] => s
  | h :: _ => { s with currentEndpoint := h.url }

/-- `recordFailure(url, error)` (lines 200-231), returning the new state
together with whether the circuit tripped, i.e. whether the
`failures >= threshold` branch at line 228 invoked
`switchToHealthyEndpoint`. -/
def recordFailureT (cbThreshold cbTimeout : Nat) (s : ManagerState) (url : String)
    (now : Nat) : ManagerState × Bool :=
  let hs := match getHealth s.healthStatus url with
    | none => s.healthStatus
    | some h => setHealth s.healthStatus
        { h with stats := failStats h.stats, isHealthy := false, hasError := true }
  let c0 := (getBreaker s.circuitBreakers url).getD ⟨0, 0⟩
  let c1 : Circuit := ⟨nextFailures cbTimeout c0 now, now⟩
  let s1 : ManagerState :=
    { s with healthStatus := hs, circuitBreakers := setBreaker s.circuitBreakers url c1 }
  if c1.failures ≥ cbThreshold then (switchToHealthyEndpoint s1 url, true) else (s1, false)

/-- `recordFailure` as a state transformer. -/
def recordFailure (cbThreshold cbTimeout : Nat) (s : ManagerState) (url : String)
    (now : Nat) : ManagerState :=
  (recordFailureT cbThreshold cbTimeout s url now).1

/-- The per-endpoint update performed by `checkEndpointsHealth`
(lines 141-180) for one probed endpoint: a fresh health record whose
`isHealthy` follows the probe outcome, whose latency is measured only on
success (it stays 0 on failure), whose error field is set exactly on
failure, and whose stats are copied from the existing record (or the
defaults when absent). -/
def probeEndpoint (s : ManagerState) (url : String) (ok : Bool) (lat : Nat)
    (now : Nat) : ManagerState :=
  let st := ((getHealth s.healthStatus url).map (·.stats)).getD initStats
  let h : EndpointHealth :=
    { url := url
      isHealthy := ok
      lastChecked := now
      latency := if ok then lat else 0
      hasError := !ok
      stats := st }
  { s with healthStatus := setHealth s.healthStatus h }

/-- The synchronous dispatch decision of `getConnection` (lines 244-263):
raise the `NO_HEALTHY_ENDPOINTS` `ConnectionError` exactly when the
current endpoint has no entry in the connections map; otherwise dispatch
through the endpoint's rate-limit queue when one exists, else directly. -/
inductive GetConnectionStep where
  | raiseNoHealthy (endpoint : String)
  | queued (opts : QueueOptions)
  | direct
deriving DecidableEq

/-- The decision `getConnection` takes before any network activity. -/
def getConnectionStep (s : ManagerState) : GetConnectionStep :=
  if s.connections.contains s.currentEndpoint then
    match s.requestQueues.find? (fun q => q.1 = s.currentEndpoint) with
    | some q => .queued q.2
    | none => .direct
  else .raiseNoHealthy s.currentEndpoint

/-- `getHealthyEndpoints()` (lines 292-294): the health records currently
marked healthy, in map order. -/
def getHealthyEndpoints (s : ManagerState) : List EndpointHealth :=
  s.healthStatus.filter (fun h => h.isHealthy)

/-- `switchEndpoint(url)` (lines 300-305): manual override, rejected when
the url is not configured. -/
def switchEndpoint (s : ManagerState) (url : String) : Option ManagerState :=
  if s.connections.contains url then some { s with currentEndpoint := url } else none

/-- The default retry count from `DEFAULT_CONFIG` (line 18,
`maxRetries: 3`), used by `retryOptions` (line 42). -/
def defaultMaxRetries : Nat := 3

/-- Error classification from the specification's taxonomy: transient
network errors versus non-transient (malformed-request) errors.  The
class is carried so the retry loop's treatment of each class can be
stated. -/
inductive ErrClass where
  | transient
  | invalidRequest
deriving DecidableEq

/-- The outcome of one invocation of the wrapped operation inside
`executeWithRetry` (lines 267-277): `none` is a successful
`getEpochInfo`, `some c` is a thrown error of class `c`. -/
abbrev Attempt := Option ErrClass

/-- The health reports `executeWithRetry` issues while running: the
`recordFailure` in the catch block fires immediately on each failed
attempt, the `recordSuccess` fires on the successful attempt. -/
inductive CallEvent where
  | recordedFailure (c : ErrClass)
  | recordedSuccess
deriving DecidableEq

/-- One step of the `p-retry` loop driving `executeWithRetry`
(lines 265-290): run the attempt numbered `attemptNumber`; on success
stop; on failure record it and, while retries remain, try again.  The
loop inspects only whether the attempt threw, never the error's class.
Returns the emitted health reports in order and the propagated error,
`none` meaning the call returned successfully. -/
def pRetryGo (outcome : Nat → Attempt) (attemptNumber : Nat) :
    Nat → List CallEvent × Option ErrClass
  | 0 =>
    match outcome attemptNumber with
    | none => ([.recordedSuccess], none)
    | some c => ([.recordedFailure c], some c)
  | r + 1 =>
    match outcome attemptNumber with
    | none => ([.recordedSuccess], none)
    | some c =>
        let rest := pRetryGo outcome (attemptNumber + 1) r
        (.recordedFailure c :: rest.1, rest.2)

/-- `executeWithRetry` (lines 265-290) as a function of the per-attempt
outcomes: `p-retry` with `retries` runs the first attempt and up to
`retries` further ones.  Attempts are numbered from 1 as in `p-retry`'s
`attemptNumber`. -/
def executeWithRetry (outcome : Nat → Attempt) (retries : Nat) :
    List CallEvent × Option ErrClass :=
  pRetryGo outcome 1 retries

/-- Discrete model of the `p-queue` interval admission configured in
`initializeEndpoints`: with `interval` one second, `intervalCap` many
tasks may start per interval window, FIFO, so with all tasks submitted
at once and no concurrency bound the `i`-th task (0-based) starts in
window `i / intervalCap`. -/
def startWindow (opts : QueueOptions) (i : Nat) : Nat := i / opts.intervalCap

/-- The tasks among the first `n` submitted that start in window `w`
under the interval-admission model. -/
def tasksInWindow (opts : QueueOptions) (n w : Nat) : List Nat :=
  (List.range n).filter (fun i => startWindow opts i = w)

/-- The kind of a logical subscription (spec section 4.5). -/
inductive SubKind where
  | logs
  | accountChange
deriving DecidableEq

/-- Modelled from the spec: `ActiveSubscription` (spec section 3) of the
SubscriptionMonitor, whose implementation is absent from the sources
(only subscription declarations and callers exist, e.g.
`subscribeToProgram` calls in `src/unnamed/part_010`).  `handle` is the
opaque cancellation token; `onEvent` is an opaque identifier for the
subscriber callback. -/
structure ActiveSubscription where
  targetKey : String
  kind : SubKind
  endpointUrl : String
  handle : Nat
  onEvent : Nat
deriving DecidableEq

/-- Modelled from the spec: `onEndpointSwitch(newUrl)` (spec section
4.5), absent from the sources.  For every active subscription the old
stream handle is cancelled (best-effort) and an equivalent stream is
re-opened on `newUrl` — `freshHandle` produces the new stream handle —
preserving `targetKey`, `kind` and `onEvent`. -/
def onEndpointSwitch (newUrl : String) (freshHandle : Nat → Nat)
    (subs : List ActiveSubscription) : List ActiveSubscription :=
  subs.map (fun sub =>
    { sub with endpointUrl := newUrl, handle := freshHandle sub.handle })

/-- The manager-level events the health state evolves under: an organic
request success or failure against an endpoint (reported by
`executeWithRetry`), or a periodic probe of an endpoint
(`checkEndpointsHealth`). -/
inductive Ev where
  | success (url : String)
  | failure (url : String) (now : Nat)
  | probe (url : String) (ok : Bool) (lat : Nat) (now : Nat)
deriving DecidableEq

/-- One manager step under an event. -/
def step (cbThreshold cbTimeout : Nat) (s : ManagerState) : Ev → ManagerState
  | .success url => recordSuccess s url
  | .failure url now => recordFailure cbThreshold cbTimeout s url now
  | .probe url ok lat now => probeEndpoint s url ok lat now

/-- Run a sequence of events. -/
def runEv (cbThreshold cbTimeout : Nat) (s : ManagerState) : List Ev → ManagerState
  | [] => s
  | e :: es => runEv cbThreshold cbTimeout (step cbThreshold cbTimeout s e) es

/-- Whether any event of the run trips a circuit (takes the line-228
branch of `recordFailure`). -/
def runTrips (cbThreshold cbTimeout : Nat) (s : ManagerState) : List Ev → Bool
  | [] => false
  | e :: es =>
      (match e with
        | .failure url now => (recordFailureT cbThreshold cbTimeout s url now).2
        | _ => false)
      || runTrips cbThreshold cbTimeout (step cbThreshold cbTimeout s e) es

/-- Spec-level counter: the length of the current run of consecutive
failures of `url`, continued from `n0`; a success on `url` resets it,
events of other endpoints and probes leave it. -/
def consecStep (url : String) (n0 : Nat) : Ev → Nat
  | .failure u _ => if u = url then n0 + 1 else n0
  | .success u => if u = url then 0 else n0
  | .probe _ _ _ _ => n0

/-- The consecutive-failure count of `url` along a trace, from `n0`. -/
def consecCount (url : String) (n0 : Nat) : List Ev → Nat
  | [] => n0
  | e :: es => consecCount url (consecStep url n0 e) es

/-- The consecutive-failure count of `url` along a trace from zero. -/
def consecFails (url : String) (evs : List Ev) : Nat := consecCount url 0 evs

/-- The breaker failure counter of `url` in a state, with the `Map.get`
default of `recordFailure` (line 216). -/
def failuresOf (s : ManagerState) (url : String) : Nat :=
  ((getBreaker s.circuitBreakers url).getD ⟨0, 0⟩).failures

/-- The `isHealthy` flag of `url`'s health record, when present. -/
def isHealthyOf (s : ManagerState) (url : String) : Option Bool :=
  (getHealth s.healthStatus url).map (·.isHealthy)

/-- The event corresponding to one attempt outcome: the catch block's
immediate `recordFailure` on a thrown error, the `recordSuccess` on a
successful attempt. -/
def mkEvent : Attempt → CallEvent
  | none => .recordedSuccess
  | some c => .recordedFailure c

instance : IsTotal EndpointHealth (fun a b => a.latency ≤ b.latency) :=
  ⟨fun a b => Nat.le_total a.latency b.latency⟩

instance : IsTrans EndpointHealth (fun a b => a.latency ≤ b.latency) :=
  ⟨fun _ _ _ h1 h2 => Nat.le_trans h1 h2⟩

/-! ### Association-map lemmas -/

theorem getHealth_cons (x : EndpointHealth) (xs : List EndpointHealth) (u : String) :
    getHealth (x :: xs) u = if x.url = u then some x else getHealth xs u := by
  by_cases hx : x.url = u <;> simp [getHealth, List.find?, hx]

theorem setHealth_cons (x : EndpointHealth) (xs : List EndpointHealth) (h : EndpointHealth) :
    setHealth (x :: xs) h = if x.url = h.url then h :: xs else x :: setHealth xs h := rfl

theorem getBreaker_cons (x : String × Circuit) (xs : List (String × Circuit)) (u : String) :
    getBreaker (x :: xs) u = if x.1 = u then some x.2 else getBreaker xs u := by
  by_cases hx : x.1 = u <;> simp [getBreaker, List.find?, hx]

theorem setBreaker_cons (x : String × Circuit) (xs : List (String × Circuit)) (u : String)
    (c : Circuit) :
    setBreaker (x :: xs) u c = if x.1 = u then (u, c) :: xs else x :: setBreaker xs u c := rfl

theorem getHealth_setHealth_self (l : List EndpointHealth) (h : EndpointHealth) :
    getHealth (setHealth l h) h.url = some h := by
  induction l with
  | nil => simp [setHealth, getHealth, List.find?]
  | cons x xs ih =>
      rw [setHealth_cons]
      by_cases hx : x.url = h.url
      · simp [hx, getHealth_cons]
      · simp [hx, getHealth_cons, ih]

theorem getHealth_setHealth_ne (l : List EndpointHealth) (h : EndpointHealth)
    (u : String) (hne : u ≠ h.url) : getHealth (setHealth l h) u = getHealth l u := by
  induction l with
  | nil => simp [setHealth, getHealth, List.find?, Ne.symm hne]
  | cons x xs ih =>
      rw [setHealth_cons]
      by_cases hx : x.url = h.url
      · have hxu : ¬ (x.url = u) := by rw [hx]; exact fun hc => hne hc.symm
        simp [hx, getHealth_cons, Ne.symm hne, hxu]
      · by_cases hxu : x.url = u
        · simp [hx, getHealth_cons, hxu, hne]
        · simp [hx, getHealth_cons, hxu, ih]

theorem mem_setHealth (l : List EndpointHealth) (h x : EndpointHealth)
    (hx : x ∈ setHealth l h) : x = h ∨ x ∈ l := by
  induction l with
  | nil => simpa [setHealth] using hx
  | cons y ys ih =>
      by_cases hy : y.url = h.url
      · rcases List.mem_cons.mp (by simpa [setHealth, hy] using hx) with rfl | hmem
        · exact Or.inl rfl
        · exact Or.inr (List.mem_cons.mpr (Or.inr hmem))
      · rcases List.mem_cons.mp (by simpa [setHealth, hy] using hx) with rfl | hmem
        · exact Or.inr (List.mem_cons.mpr (Or.inl rfl))
        · rcases ih hmem with h1 | h2
          · exact Or.inl h1
          · exact Or.inr (List.mem_cons.mpr (Or.inr h2))

theorem getHealth_url (l : List EndpointHealth) (url : String) (h : EndpointHealth)
    (hh : getHealth l url = some h) : h.url = url := by
  have := List.find?_some hh
  simpa using this

theorem getHealth_mem (l : List EndpointHealth) (url : String) (h : EndpointHealth)
    (hh : getHealth l url = some h) : h ∈ l :=
  List.mem_of_find?_eq_some hh

theorem getBreaker_setBreaker_self (l : List (String × Circuit)) (u : String) (c : Circuit) :
    getBreaker (setBreaker l u c) u = some c := by
  induction l with
  | nil => simp [setBreaker, getBreaker, List.find?]
  | cons x xs ih =>
      rw [setBreaker_cons]
      by_cases hx : x.1 = u
      · simp [hx, getBreaker_cons]
      · simp [hx, getBreaker_cons, ih]

theorem getBreaker_setBreaker_ne (l : List (String × Circuit)) (u : String) (c : Circuit)
    (u' : String) (hne : u' ≠ u) : getBreaker (setBreaker l u c) u' = getBreaker l u' := by
  induction l with
  | nil => simp [setBreaker, getBreaker, List.find?, Ne.symm hne]
  | cons x xs ih =>
      rw [setBreaker_cons]
      by_cases hx : x.1 = u
      · have hxu : ¬ (x.1 = u') := by rw [hx]; exact fun hc => hne hc.symm
        simp [hx, getBreaker_cons, Ne.symm hne, hxu]
      · by_cases hxu : x.1 = u'
        · simp [hx, getBreaker_cons, hxu, hne]
        · simp [hx, getBreaker_cons, hxu, ih]

/-- The breaker map after `recordSuccess`'s reset (lines 194-197),
expressed through lookups. -/
theorem getBreaker_resetMap (l : List (String × Circuit)) (url u : String) :
    getBreaker (l.map (fun x => if x.1 = url then (x.1, { x.2 with failures := 0 }) else x)) u
      = if u = url then (getBreaker l u).map (fun c => { c with failures := 0 })
        else getBreaker l u := by
  induction l with
  | nil => simp [getBreaker, List.find?]
  | cons x xs ih =>
      rw [List.map_cons, getBreaker_cons, getBreaker_cons]
      by_cases hx : x.1 = url
      · by_cases hu : u = url
        · simp [hx, hu]
        · have hxu : ¬ (x.1 = u) := by rw [hx]; exact fun hc => hu hc.symm
          have hux : ¬ (url = u) := fun hc => hu hc.symm
          simp [hx, hu, hxu, hux, ih]
      · by_cases hxu : x.1 = u
        · have hu : ¬ (u = url) := by rw [← hxu]; exact hx
          simp [hx, hxu, hu]
        · simp [hx, hxu, ih]

/-! ### switchToHealthyEndpoint lemmas -/

/-- The sorted healthy-candidate list `switchToHealthyEndpoint` builds
(lines 234-236). -/
def failoverCandidates (s : ManagerState) (failedUrl : String) : List EndpointHealth :=
  (s.healthStatus.filter (fun h => h.isHealthy && h.url != failedUrl)).insertionSort
    (fun a b => a.latency ≤ b.latency)

theorem switchToHealthyEndpoint_eq_nil (s : ManagerState) (u : String)
    (hnil : failoverCandidates s u = []) : switchToHealthyEndpoint s u = s := by
  unfold switchToHealthyEndpoint
  rw [show ((s.healthStatus.filter (fun h => h.isHealthy && h.url != u)).insertionSort
    (fun a b => a.latency ≤ b.latency)) = [] from hnil]

theorem switchToHealthyEndpoint_eq_cons (s : ManagerState) (u : String)
    (h : EndpointHealth) (rest : List EndpointHealth)
    (hc : failoverCandidates s u = h :: rest) :
    switchToHealthyEndpoint s u = { s with currentEndpoint := h.url } := by
  unfold switchToHealthyEndpoint
  rw [show ((s.healthStatus.filter (fun h => h.isHealthy && h.url != u)).insertionSort
    (fun a b => a.latency ≤ b.latency)) = h :: rest from hc]

theorem switchToHealthyEndpoint_proj (s : ManagerState) (u : String) :
    (switchToHealthyEndpoint s u).healthStatus = s.healthStatus
    ∧ (switchToHealthyEndpoint s u).circuitBreakers = s.circuitBreakers
    ∧ (switchToHealthyEndpoint s u).connections = s.connections
    ∧ (switchToHealthyEndpoint s u).requestQueues = s.requestQueues := by
  cases hc : failoverCandidates s u with
  | nil => rw [switchToHealthyEndpoint_eq_nil s u hc]; exact ⟨rfl, rfl, rfl, rfl⟩
  | cons h rest => rw [switchToHealthyEndpoint_eq_cons s u h rest hc]; exact ⟨rfl, rfl, rfl, rfl⟩

/-! ### Concrete fixtures for executable checks -/

/-- A concrete endpoint url. -/
def urlA : String := "https://a.example"

/-- A second concrete endpoint url. -/
def urlB : String := "https://b.example"

/-- A one-endpoint configuration with the effective defaults
(`maxRetries 3`, breaker threshold 5, decay window 60000). -/
def cfgA : ManagerConfig := ⟨[⟨urlA, none⟩], none, 3, 5, 60000⟩

/-- A two-endpoint configuration with the effective defaults. -/
def cfgAB : ManagerConfig := ⟨[⟨urlA, none⟩, ⟨urlB, none⟩], none, 3, 5, 60000⟩

/-- Both endpoints probed healthy, latency 5 for A and 2 for B. -/
def stateProbedAB : ManagerState :=
  runEv 5 60000 (initState cfgAB) [.probe urlA true 5 10, .probe urlB true 2 10]

/-- The single endpoint A probed unhealthy. -/
def stateUnhealthyA : ManagerState :=
  runEv 5 60000 (initState cfgA) [.probe urlA false 0 10]

/-! ### C9 -/

/-- C9 counterexample: in a reachable state whose healthy endpoints have
latencies 5 (A) then 2 (B), `getHealthyEndpoints` returns them in map
order, not sorted by ascending latency as the claim states. -/
theorem C9_counterexample :
    (getHealthyEndpoints stateProbedAB).map (fun h => h.latency) = [5, 2]
    ∧ ¬ List.Sorted (fun a b => a ≤ b)
        ((getHealthyEndpoints stateProbedAB).map (fun h => h.latency)) := by
  constructor
  · decide
  · decide

/-- C9 (amended): `getHealthyEndpoints` returns exactly the endpoints
currently marked healthy, in map order (a sublist of the health map);
it does not sort by latency — the ascending-latency ordering is applied
separately inside `switchToHealthyEndpoint`. -/
theorem C9_list_healthy_exact :
    ∀ (s : ManagerState) (hE : EndpointHealth),
      (hE ∈ getHealthyEndpoints s ↔ hE ∈ s.healthStatus ∧ hE.isHealthy = true)
      ∧ (getHealthyEndpoints s).Sublist s.healthStatus := by
  intro s hE
  constructor
  · simp [getHealthyEndpoints, List.mem_filter]
  · exact List.filter_sublist s.healthStatus

/-! ### C3 -/

/-- C3 counterexample: a reachable state with zero healthy endpoints in
which `getConnection` does not raise — the current endpoint still has a
connection in the map, so the dispatch proceeds directly. -/
theorem C3_counterexample :
    getHealthyEndpoints stateUnhealthyA = []
    ∧ getConnectionStep stateUnhealthyA = GetConnectionStep.direct
    ∧ GetConnectionStep.direct
        ≠ GetConnectionStep.raiseNoHealthy stateUnhealthyA.currentEndpoint := by
  refine ⟨by decide, by decide, by decide⟩

/-- C3 (amended): with zero healthy endpoints, `failover` leaves the
whole state (in particular `CurrentEndpoint`) unchanged; `getConnection`
raises its `NO_HEALTHY_ENDPOINTS` error exactly when the current
endpoint has no entry in the connections map, independent of health
state. -/
theorem C3_failover_noop_error_is_map_miss :
    (∀ (s : ManagerState) (u : String), getHealthyEndpoints s = [] →
        switchToHealthyEndpoint s u = s)
    ∧ ∀ s : ManagerState,
        (getConnectionStep s = GetConnectionStep.raiseNoHealthy s.currentEndpoint
          ↔ s.connections.contains s.currentEndpoint = false) := by
  constructor
  · intro s u hempty
    have hall : ∀ h ∈ s.healthStatus, ¬ (h.isHealthy = true) := by
      intro h hmem
      exact (List.filter_eq_nil_iff.mp hempty) h hmem
    have hfilter : s.healthStatus.filter (fun h => h.isHealthy && h.url != u) = [] := by
      apply List.filter_eq_nil_iff.mpr
      intro h hmem
      simp only [Bool.and_eq_true, not_and]
      intro hh
      exact absurd hh (hall h hmem)
    apply switchToHealthyEndpoint_eq_nil
    unfold failoverCandidates
    rw [hfilter]
    rfl
  · intro s
    cases hc : s.connections.contains s.currentEndpoint with
    | true =>
        simp only [getConnectionStep, hc, if_true]
        cases hq : s.requestQueues.find? (fun q => q.1 = s.currentEndpoint) with
        | none => simp
        | some q => simp
    | false =>
        have hr : getConnectionStep s = GetConnectionStep.raiseNoHealthy s.currentEndpoint := by
          unfold getConnectionStep
          rw [hc]
          rfl
        rw [hr]
        simp

/-- Witness for C3's amended theorem at a concrete reachable state. -/
theorem C3_witness :
    getHealthyEndpoints stateUnhealthyA = []
    ∧ switchToHealthyEndpoint stateUnhealthyA urlA = stateUnhealthyA :=
  ⟨by decide, C3_failover_noop_error_is_map_miss.1 stateUnhealthyA urlA (by decide)⟩

/-! ### C7 -/

/-- C7: after the failover migration, every previously active
subscription sits on the new endpoint, the multiset (indeed the ordered
list) of targetKey/kind pairs is unchanged — none lost, none duplicated
— and every onEvent callback is preserved. -/
theorem C7_subscription_migration :
    ∀ (newUrl : String) (freshHandle : Nat → Nat) (subs : List ActiveSubscription),
      (∀ sub ∈ onEndpointSwitch newUrl freshHandle subs, sub.endpointUrl = newUrl)
      ∧ (onEndpointSwitch newUrl freshHandle subs).map (fun sub => (sub.targetKey, sub.kind))
          = subs.map (fun sub => (sub.targetKey, sub.kind))
      ∧ (onEndpointSwitch newUrl freshHandle subs).map (fun sub => sub.onEvent)
          = subs.map (fun sub => sub.onEvent)
      ∧ (onEndpointSwitch newUrl freshHandle subs).length = subs.length := by
  intro newUrl f subs
  refine ⟨?_, ?_, ?_, ?_⟩
  · intro sub hmem
    rcases List.mem_map.mp hmem with ⟨x, _, rfl⟩
    rfl
  · rw [onEndpointSwitch, List.map_map]
    rfl
  · rw [onEndpointSwitch, List.map_map]
    rfl
  · rw [onEndpointSwitch, List.length_map]

/-- A concrete subscription for the C7 check. -/
def subFixture : ActiveSubscription := ⟨"Prog1", SubKind.logs, "https://a.example", 1, 7⟩

/-- Witness for C7 at a concrete subscription list. -/
theorem C7_witness :
    (onEndpointSwitch urlB Nat.succ [subFixture]).map (fun sub => sub.onEvent)
      = [subFixture].map (fun sub => sub.onEvent) :=
  (C7_subscription_migration urlB Nat.succ [subFixture]).2.2.1

/-! ### C8 -/

/-- C8 counterexample: for an endpoint configured with
`rps = 5, burst` unspecified, the queue is created without any
concurrency bound (the option is omitted, leaving the library default of
unbounded concurrency), not with concurrency 5 as the claim's
"defaulting to requestsPerSecond" states. -/
theorem C8_counterexample :
    (mkQueueOptions { rps := 5, burst := none }).concurrency = none
    ∧ (mkQueueOptions { rps := 5, burst := none }).concurrency ≠ some 5 := by
  exact ⟨rfl, by decide⟩

/-- C8 (amended): an endpoint without a configured rate limit is
dispatched immediately (no queue); a configured endpoint gets a queue
releasing at most `rps` task starts per one-second interval window
(under the interval-admission model, any window holds at most
`intervalCap = rps` of the FIFO task sequence, and task start windows
are monotone in submission order); admitted tasks run with concurrency
bounded by `burst` when `burst` is specified, and with the queue
library's default of unbounded concurrency — not `rps` — when it is
unspecified. -/
theorem C8_rate_limit_configuration :
    (∀ (cfg : ManagerConfig) (e : EndpointConfig), e ∈ cfg.endpoints →
        e.rateLimit = none → (cfg.endpoints.map (fun e => e.url)).Nodup →
        getConnectionStep { initState cfg with currentEndpoint := e.url }
          = GetConnectionStep.direct)
    ∧ (∀ rl : RateLimit,
        (mkQueueOptions rl).intervalCap = rl.rps
        ∧ (mkQueueOptions rl).interval = 1000
        ∧ (mkQueueOptions rl).concurrency = rl.burst)
    ∧ (∀ (opts : QueueOptions) (n w : Nat), 0 < opts.intervalCap →
        (tasksInWindow opts n w).length ≤ opts.intervalCap)
    ∧ (∀ (opts : QueueOptions) (i j : Nat), i ≤ j →
        startWindow opts i ≤ startWindow opts j) := by
  refine ⟨?_, ?_, ?_, ?_⟩
  · intro cfg e hmem hnone hnodup
    have hcont : ((initState cfg).connections).contains e.url = true :=
      List.elem_eq_true_of_mem (List.mem_map_of_mem _ hmem)
    have hfind : (initState cfg).requestQueues.find? (fun q => q.1 = e.url) = none := by
      apply List.find?_eq_none.mpr
      intro x hx
      rcases List.mem_filterMap.mp hx with ⟨e2, he2, hmap⟩
      rcases Option.map_eq_some'.mp hmap with ⟨rl, hrl, hxeq⟩
      intro hx1
      have hx1' : x.1 = e.url := by simpa using hx1
      have hurl : e2.url = e.url := by rw [← hxeq] at hx1'; exact hx1'
      have : e2 = e :=
        List.inj_on_of_nodup_map hnodup he2 hmem hurl
      rw [this] at hrl
      rw [hrl] at hnone
      exact Option.noConfusion hnone
    unfold getConnectionStep
    rw [show ({ initState cfg with currentEndpoint := e.url } : ManagerState).connections
        = (initState cfg).connections from rfl]
    rw [show ({ initState cfg with currentEndpoint := e.url } : ManagerState).currentEndpoint
        = e.url from rfl]
    rw [hcont]
    rw [show ({ initState cfg with currentEndpoint := e.url } : ManagerState).requestQueues
        = (initState cfg).requestQueues from rfl]
    rw [hfind]
    rfl
  · intro rl
    exact ⟨rfl, rfl, rfl⟩
  · intro opts n w hpos
    have hnodup : (tasksInWindow opts n w).Nodup :=
      List.Nodup.filter _ (List.nodup_range n)
    have hsub : (tasksInWindow opts n w).toFinset
        ⊆ Finset.Ico (w * opts.intervalCap) (w * opts.intervalCap + opts.intervalCap) := by
      intro i hi
      rw [List.mem_toFinset] at hi
      rcases List.mem_filter.mp hi with ⟨_, hw⟩
      have hw' : i / opts.intervalCap = w := by simpa [startWindow] using hw
      rw [Finset.mem_Ico]
      constructor
      · calc w * opts.intervalCap = i / opts.intervalCap * opts.intervalCap := by rw [hw']
          _ ≤ i := Nat.div_mul_le_self i _
      · have hlt : i / opts.intervalCap < w + 1 := by omega
        have := (Nat.div_lt_iff_lt_mul hpos).mp hlt
        calc i < (w + 1) * opts.intervalCap := this
          _ = w * opts.intervalCap + opts.intervalCap := by ring
    calc (tasksInWindow opts n w).length = (tasksInWindow opts n w).toFinset.card :=
          (List.toFinset_card_of_nodup hnodup).symm
      _ ≤ (Finset.Ico (w * opts.intervalCap) (w * opts.intervalCap + opts.intervalCap)).card :=
          Finset.card_le_card hsub
      _ = opts.intervalCap := by rw [Nat.card_Ico]; omega
  · intro opts i j hij
    exact Nat.div_le_div_right hij

/-- A configuration with a rate-limited and an unlimited endpoint. -/
def cfgQ : ManagerConfig := ⟨[⟨urlA, none⟩, ⟨urlB, some ⟨5, none⟩⟩], none, 3, 5, 60000⟩

/-- Witness for C8's amended theorem at a concrete configuration. -/
theorem C8_witness :
    getConnectionStep { initState cfgQ with currentEndpoint := urlA }
      = GetConnectionStep.direct :=
  C8_rate_limit_configuration.1 cfgQ ⟨urlA, none⟩ (by decide) rfl (by decide)

/-! ### Retry-loop lemmas -/

theorem pRetryGo_length_le (o : Nat → Attempt) :
    ∀ (r an : Nat), (pRetryGo o an r).1.length ≤ r + 1 := by
  intro r
  induction r with
  | zero => intro an; cases ho : o an <;> simp [pRetryGo, ho]
  | succ r ih =>
      intro an
      cases ho : o an with
      | none => simp [pRetryGo, ho]
      | some c =>
          have h := ih (an + 1)
          simp only [pRetryGo, ho, List.length_cons]
          omega

theorem pRetryGo_events (o : Nat → Attempt) :
    ∀ (r an i : Nat), i < (pRetryGo o an r).1.length →
      (pRetryGo o an r).1[i]? = some (mkEvent (o (an + i))) := by
  intro r
  induction r with
  | zero =>
      intro an i hi
      cases ho : o an with
      | none =>
          simp only [pRetryGo, ho, List.length_singleton] at hi
          have : i = 0 := by omega
          subst this
          simp [pRetryGo, ho, mkEvent]
      | some c =>
          simp only [pRetryGo, ho, List.length_singleton] at hi
          have : i = 0 := by omega
          subst this
          simp [pRetryGo, ho, mkEvent]
  | succ r ih =>
      intro an i hi
      cases ho : o an with
      | none =>
          simp only [pRetryGo, ho, List.length_singleton] at hi
          have : i = 0 := by omega
          subst this
          simp [pRetryGo, ho, mkEvent]
      | some c =>
          cases i with
          | zero => simp [pRetryGo, ho, mkEvent]
          | succ i =>
              simp only [pRetryGo, ho, List.length_cons] at hi
              have hi2 : i < (pRetryGo o (an + 1) r).1.length := by omega
              have h := ih (an + 1) i hi2
              simp only [pRetryGo, ho, List.getElem?_cons_succ]
              rw [h, show an + 1 + i = an + (i + 1) from by omega]

theorem pRetryGo_first_success (o : Nat → Attempt) :
    ∀ (m r an : Nat), m ≤ r → (∀ j, j < m → (o (an + j)).isSome = true) →
      o (an + m) = none →
      (pRetryGo o an r).1.length = m + 1 ∧ (pRetryGo o an r).2 = none := by
  intro m
  induction m with
  | zero =>
      intro r an _ _ hsucc
      rw [Nat.add_zero] at hsucc
      cases r <;> simp [pRetryGo, hsucc]
  | succ m ih =>
      intro r an hmr hfail hsucc
      obtain ⟨r2, rfl⟩ : ∃ r2, r = r2 + 1 := ⟨r - 1, by omega⟩
      have h0 : (o an).isSome = true := by
        have h := hfail 0 (Nat.succ_pos m)
        simpa using h
      obtain ⟨c, hc⟩ := Option.isSome_iff_exists.mp h0
      have ihr := ih r2 (an + 1) (by omega)
        (fun j hj => by
          have h := hfail (j + 1) (by omega)
          rw [show an + 1 + j = an + (j + 1) from by omega]
          exact h)
        (by rw [show an + 1 + m = an + (m + 1) from by omega]; exact hsucc)
      constructor
      · simp only [pRetryGo, hc, List.length_cons, ihr.1]
      · simp only [pRetryGo, hc, ihr.2]

theorem pRetryGo_all_fail (c : ErrClass) :
    ∀ (r an : Nat), (pRetryGo (fun _ => some c) an r).1.length = r + 1
      ∧ (pRetryGo (fun _ => some c) an r).2 = some c := by
  intro r
  induction r with
  | zero => intro an; simp [pRetryGo]
  | succ r ih =>
      intro an
      have h := ih (an + 1)
      constructor
      · simp only [pRetryGo, List.length_cons, h.1]
      · simp only [pRetryGo, h.2]

theorem pRetryGo_length_congr (o o2 : Nat → Attempt)
    (h : ∀ i, (o i).isSome = (o2 i).isSome) :
    ∀ (r an : Nat), (pRetryGo o an r).1.length = (pRetryGo o2 an r).1.length := by
  intro r
  induction r with
  | zero =>
      intro an
      have han := h an
      cases ho : o an with
      | none =>
          rw [ho] at han
          have h2 : o2 an = none := by
            cases h2 : o2 an with
            | none => rfl
            | some c2 => rw [h2] at han; simp at han
          simp [pRetryGo, ho, h2]
      | some c =>
          rw [ho] at han
          obtain ⟨c2, h2⟩ : ∃ c2, o2 an = some c2 := by
            cases h2 : o2 an with
            | none => rw [h2] at han; simp at han
            | some c2 => exact ⟨c2, rfl⟩
          simp [pRetryGo, ho, h2]
  | succ r ih =>
      intro an
      have han := h an
      cases ho : o an with
      | none =>
          rw [ho] at han
          have h2 : o2 an = none := by
            cases h2 : o2 an with
            | none => rfl
            | some c2 => rw [h2] at han; simp at han
          simp [pRetryGo, ho, h2]
      | some c =>
          rw [ho] at han
          obtain ⟨c2, h2⟩ : ∃ c2, o2 an = some c2 := by
            cases h2 : o2 an with
            | none => rw [h2] at han; simp at han
            | some c2 => exact ⟨c2, rfl⟩
          simp only [pRetryGo, ho, h2, List.length_cons]
          rw [ih (an + 1)]

/-! ### C5 -/

/-- C5: with the default `retries = 3` the retry loop invokes the
underlying operation at most 4 times; when the first `k-1` attempts fail
and attempt `k` succeeds, exactly `k` invocations happen, the call
returns successfully and the `k`-th health report is the
`recordSuccess`; and the `i`-th health report is always the immediate
record of the `i`-th attempt's outcome — each failed attempt is reported
as a failure immediately, not only after exhausting retries. -/
theorem C5_retry_call_bounds :
    (∀ o : Nat → Attempt, (executeWithRetry o defaultMaxRetries).1.length ≤ 4)
    ∧ (∀ (o : Nat → Attempt) (k : Nat), 1 ≤ k → k ≤ 4 →
        (∀ i, 1 ≤ i → i < k → (o i).isSome = true) → o k = none →
          (executeWithRetry o defaultMaxRetries).1.length = k
          ∧ (executeWithRetry o defaultMaxRetries).2 = none
          ∧ (executeWithRetry o defaultMaxRetries).1[k - 1]?
              = some CallEvent.recordedSuccess)
    ∧ (∀ (o : Nat → Attempt) (i : Nat), i < (executeWithRetry o defaultMaxRetries).1.length →
        (executeWithRetry o defaultMaxRetries).1[i]? = some (mkEvent (o (i + 1)))) := by
  refine ⟨?_, ?_, ?_⟩
  · intro o
    exact pRetryGo_length_le o defaultMaxRetries 1
  · intro o k hk1 hk4 hfail hsucc
    have hm := pRetryGo_first_success o (k - 1) defaultMaxRetries 1
      (by simp only [defaultMaxRetries]; omega)
      (fun j hj => by
        have h := hfail (j + 1) (by omega) (by omega)
        rw [show 1 + j = j + 1 from by omega]
        exact h)
      (by rw [show 1 + (k - 1) = k from by omega]; exact hsucc)
    have hlen : (executeWithRetry o defaultMaxRetries).1.length = k := by
      have := hm.1
      rw [executeWithRetry]
      omega
    refine ⟨hlen, hm.2, ?_⟩
    have hev := pRetryGo_events o defaultMaxRetries 1 (k - 1)
      (by rw [show (pRetryGo o 1 defaultMaxRetries).1.length
          = (executeWithRetry o defaultMaxRetries).1.length from rfl, hlen]; omega)
    rw [executeWithRetry, hev, show 1 + (k - 1) = k from by omega, hsucc]
    rfl
  · intro o i hi
    have h := pRetryGo_events o defaultMaxRetries 1 i hi
    rw [executeWithRetry, h, Nat.add_comm]

/-- A concrete outcome pattern: the first attempt fails transiently, the
second succeeds. -/
def witnessOutcome : Nat → Attempt := fun n => if n = 1 then some ErrClass.transient else none

/-- Witness for C5 at a concrete outcome pattern. -/
theorem C5_witness :
    (executeWithRetry witnessOutcome defaultMaxRetries).1.length = 2
    ∧ (executeWithRetry witnessOutcome defaultMaxRetries).2 = none
    ∧ (executeWithRetry witnessOutcome defaultMaxRetries).1[2 - 1]?
        = some CallEvent.recordedSuccess :=
  C5_retry_call_bounds.2.1 witnessOutcome 2 (by decide) (by decide)
    (fun i h1 h2 => by
      have he : i = 1 := by omega
      rw [he]
      rfl)
    rfl

/-! ### C6 -/

/-- C6 counterexample: a non-transient (malformed-request class) error
raised on every attempt is retried like any other — the underlying
operation is invoked 4 times before the error propagates, not 1 time as
the claim's no-retry-for-non-transient policy states. -/
theorem C6_counterexample :
    (executeWithRetry (fun _ => some ErrClass.invalidRequest) defaultMaxRetries).1.length = 4
    ∧ (executeWithRetry (fun _ => some ErrClass.invalidRequest) defaultMaxRetries).2
        = some ErrClass.invalidRequest
    ∧ (executeWithRetry (fun _ => some ErrClass.invalidRequest) defaultMaxRetries).1.length
        ≠ 1 := by
  refine ⟨by decide, by decide, by decide⟩

/-- C6 (amended): the retry loop does not distinguish error classes —
any persistently failing operation, transient or not, is invoked
`retries + 1` times before its error propagates, and the number of
invocations depends only on which attempts fail, never on the class of
the errors. -/
theorem C6_retry_ignores_error_class :
    (∀ (c : ErrClass) (r : Nat),
        (executeWithRetry (fun _ => some c) r).1.length = r + 1
        ∧ (executeWithRetry (fun _ => some c) r).2 = some c)
    ∧ (∀ (o o2 : Nat → Attempt) (r : Nat), (∀ i, (o i).isSome = (o2 i).isSome) →
        (executeWithRetry o r).1.length = (executeWithRetry o2 r).1.length) := by
  constructor
  · intro c r
    exact pRetryGo_all_fail c r 1
  · intro o o2 r h
    exact pRetryGo_length_congr o o2 h r 1

/-- Witness for C6's amended theorem: the invalid-request pattern and the
transient pattern produce the same number of invocations. -/
theorem C6_witness :
    (executeWithRetry (fun _ => some ErrClass.invalidRequest) 3).1.length
      = (executeWithRetry (fun _ => some ErrClass.transient) 3).1.length :=
  C6_retry_ignores_error_class.2 (fun _ => some ErrClass.invalidRequest)
    (fun _ => some ErrClass.transient) 3 (fun _ => rfl)

/-! ### Frame lemmas for recordSuccess / recordFailure / probe -/

/-- The health-record fields other than `totalRequests`/`successRate`. -/
def healthFrame (h : EndpointHealth) : String × Bool × Nat × Nat × Bool × Nat :=
  (h.url, h.isHealthy, h.lastChecked, h.latency, h.hasError, h.stats.failedRequests)

theorem setHealth_map_healthFrame (l : List EndpointHealth) (h h2 : EndpointHealth)
    (hurl : h2.url = h.url) (hfound : getHealth l h.url = some h)
    (hfr : healthFrame h2 = healthFrame h) :
    (setHealth l h2).map healthFrame = l.map healthFrame := by
  induction l with
  | nil => simp [getHealth, List.find?] at hfound
  | cons x xs ih =>
      rw [setHealth_cons]
      rw [getHealth_cons] at hfound
      by_cases hx : x.url = h2.url
      · have hx2 : x.url = h.url := by rw [hx, hurl]
        rw [if_pos hx2] at hfound
        have hxh : x = h := Option.some.inj hfound
        rw [if_pos hx, List.map_cons, List.map_cons, hfr, hxh]
      · have hx2 : ¬ (x.url = h.url) := by rw [← hurl]; exact hx
        rw [if_neg hx2] at hfound
        rw [if_neg hx, List.map_cons, List.map_cons, ih hfound]

theorem resetMap_lastFailure (l : List (String × Circuit)) (url : String) :
    (l.map (fun x => if x.1 = url then (x.1, { x.2 with failures := 0 }) else x)).map
        (fun x => (x.1, x.2.lastFailure))
      = l.map (fun x => (x.1, x.2.lastFailure)) := by
  induction l with
  | nil => rfl
  | cons x xs ih => by_cases hx : x.1 = url <;> simp [hx, ih]

theorem isHealthyOf_setHealth_record (l : List EndpointHealth) (h2 : EndpointHealth)
    (u v : String) (hv : h2.url = v) :
    (getHealth (setHealth l h2) u).map (fun x => x.isHealthy)
      = if u = v then some h2.isHealthy else (getHealth l u).map (fun x => x.isHealthy) := by
  subst hv
  by_cases hu : u = h2.url
  · rw [if_pos hu, hu, getHealth_setHealth_self]
    rfl
  · rw [if_neg hu, getHealth_setHealth_ne l h2 u hu]

theorem recordSuccess_healthStatus (s : ManagerState) (url : String) :
    (recordSuccess s url).healthStatus
      = match getHealth s.healthStatus url with
        | none => s.healthStatus
        | some h => setHealth s.healthStatus { h with stats := succStats h.stats } := rfl

theorem recordSuccess_healthStatus_none (s : ManagerState) (url : String)
    (hg : getHealth s.healthStatus url = none) :
    (recordSuccess s url).healthStatus = s.healthStatus := by
  rw [recordSuccess_healthStatus, hg]

theorem recordSuccess_healthStatus_some (s : ManagerState) (url : String)
    (h : EndpointHealth) (hg : getHealth s.healthStatus url = some h) :
    (recordSuccess s url).healthStatus
      = setHealth s.healthStatus { h with stats := succStats h.stats } := by
  rw [recordSuccess_healthStatus, hg]

theorem isHealthyOf_recordSuccess (s : ManagerState) (url u : String) :
    isHealthyOf (recordSuccess s url) u = isHealthyOf s u := by
  unfold isHealthyOf
  cases hg : getHealth s.healthStatus url with
  | none => rw [recordSuccess_healthStatus_none s url hg]
  | some h =>
      have hurl : h.url = url := getHealth_url _ _ _ hg
      rw [recordSuccess_healthStatus_some s url h hg,
        isHealthyOf_setHealth_record s.healthStatus
          { h with stats := succStats h.stats } u url hurl]
      by_cases hu : u = url
      · subst hu
        rw [if_pos rfl, hg]
        rfl
      · rw [if_neg hu]

theorem recordFailure_healthStatus (cbThreshold cbTimeout : Nat) (s : ManagerState)
    (url : String) (now : Nat) :
    (recordFailure cbThreshold cbTimeout s url now).healthStatus
      = match getHealth s.healthStatus url with
        | none => s.healthStatus
        | some h => setHealth s.healthStatus
            { h with stats := failStats h.stats, isHealthy := false, hasError := true } := by
  simp only [recordFailure, recordFailureT]
  split
  · rw [(switchToHealthyEndpoint_proj _ _).1]
  · rfl

theorem recordFailure_circuitBreakers (cbThreshold cbTimeout : Nat) (s : ManagerState)
    (url : String) (now : Nat) :
    (recordFailure cbThreshold cbTimeout s url now).circuitBreakers
      = setBreaker s.circuitBreakers url
          ⟨nextFailures cbTimeout ((getBreaker s.circuitBreakers url).getD ⟨0, 0⟩) now, now⟩ := by
  simp only [recordFailure, recordFailureT]
  split
  · rw [(switchToHealthyEndpoint_proj _ _).2.1]
  · rfl

theorem recordFailureT_trips_iff (cbThreshold cbTimeout : Nat) (s : ManagerState)
    (url : String) (now : Nat) :
    (recordFailureT cbThreshold cbTimeout s url now).2 = true
      ↔ cbThreshold
          ≤ nextFailures cbTimeout ((getBreaker s.circuitBreakers url).getD ⟨0, 0⟩) now := by
  simp only [recordFailureT]
  split
  · next hcond => exact iff_of_true rfl hcond
  · next hcond => exact iff_of_false (by simp) hcond

theorem recordFailure_healthStatus_none (cbThreshold cbTimeout : Nat) (s : ManagerState)
    (url : String) (now : Nat) (hg : getHealth s.healthStatus url = none) :
    (recordFailure cbThreshold cbTimeout s url now).healthStatus = s.healthStatus := by
  rw [recordFailure_healthStatus, hg]

theorem recordFailure_healthStatus_some (cbThreshold cbTimeout : Nat) (s : ManagerState)
    (url : String) (now : Nat) (h : EndpointHealth)
    (hg : getHealth s.healthStatus url = some h) :
    (recordFailure cbThreshold cbTimeout s url now).healthStatus
      = setHealth s.healthStatus
          { h with stats := failStats h.stats, isHealthy := false, hasError := true } := by
  rw [recordFailure_healthStatus, hg]

theorem isHealthyOf_recordFailure (cbThreshold cbTimeout : Nat) (s : ManagerState)
    (url u : String) (now : Nat) :
    isHealthyOf (recordFailure cbThreshold cbTimeout s url now) u
      = if u = url then (isHealthyOf s u).map (fun _ => false) else isHealthyOf s u := by
  unfold isHealthyOf
  cases hg : getHealth s.healthStatus url with
  | none =>
      rw [recordFailure_healthStatus_none cbThreshold cbTimeout s url now hg]
      by_cases hu : u = url
      · subst hu
        rw [if_pos rfl, hg]
        rfl
      · rw [if_neg hu]
  | some h =>
      have hurl : h.url = url := getHealth_url _ _ _ hg
      rw [recordFailure_healthStatus_some cbThreshold cbTimeout s url now h hg,
        isHealthyOf_setHealth_record s.healthStatus
          { h with stats := failStats h.stats, isHealthy := false, hasError := true }
          u url hurl]
      by_cases hu : u = url
      · subst hu
        rw [if_pos rfl, if_pos rfl, hg]
        rfl
      · rw [if_neg hu, if_neg hu]

theorem isHealthyOf_probe (s : ManagerState) (url u : String) (ok : Bool) (lat now : Nat) :
    isHealthyOf (probeEndpoint s url ok lat now) u
      = if u = url then some ok else isHealthyOf s u := by
  unfold isHealthyOf
  rw [show (probeEndpoint s url ok lat now).healthStatus
      = setHealth s.healthStatus
          { url := url, isHealthy := ok, lastChecked := now,
            latency := if ok then lat else 0, hasError := !ok,
            stats := ((getHealth s.healthStatus url).map (fun h => h.stats)).getD initStats }
      from rfl]
  rw [isHealthyOf_setHealth_record s.healthStatus _ u url rfl]

/-! ### C10 -/

/-- C10: `recordSuccess` changes only the stats counters
(`totalRequests`/`successRate`) and the breaker failure counter — it
preserves `currentEndpoint`, the connection and queue maps, every other
health field including `isHealthy` and `failedRequests`, and every
breaker's `lastFailure`; an endpoint once marked unhealthy stays
unhealthy under arbitrarily many subsequent successful requests; and the
only event that flips an endpoint from unhealthy to healthy is a
successful probe of that endpoint. -/
theorem C10_record_success_frame :
    (∀ (s : ManagerState) (url : String),
        (recordSuccess s url).currentEndpoint = s.currentEndpoint
        ∧ (recordSuccess s url).connections = s.connections
        ∧ (recordSuccess s url).requestQueues = s.requestQueues
        ∧ (recordSuccess s url).healthStatus.map healthFrame = s.healthStatus.map healthFrame
        ∧ (recordSuccess s url).circuitBreakers.map (fun x => (x.1, x.2.lastFailure))
            = s.circuitBreakers.map (fun x => (x.1, x.2.lastFailure)))
    ∧ (∀ (cbThreshold cbTimeout : Nat) (urls : List String) (s : ManagerState) (u : String),
        isHealthyOf s u = some false →
        isHealthyOf (runEv cbThreshold cbTimeout s (urls.map Ev.success)) u = some false)
    ∧ (∀ (cbThreshold cbTimeout : Nat) (s : ManagerState) (e : Ev) (u : String),
        isHealthyOf s u = some false →
        isHealthyOf (step cbThreshold cbTimeout s e) u = some true →
        ∃ lat now, e = Ev.probe u true lat now) := by
  refine ⟨?_, ?_, ?_⟩
  · intro s url
    refine ⟨rfl, rfl, rfl, ?_, ?_⟩
    · cases hg : getHealth s.healthStatus url with
      | none => simp [recordSuccess, hg]
      | some h =>
          have hurl : h.url = url := getHealth_url _ _ _ hg
          simp only [recordSuccess, hg]
          exact setHealth_map_healthFrame s.healthStatus h
            { h with stats := succStats h.stats } rfl (by rw [hurl]; exact hg) rfl
    · exact resetMap_lastFailure s.circuitBreakers url
  · intro th tmo urls
    induction urls with
    | nil => intro s u h; exact h
    | cons x xs ih =>
        intro s u h
        simp only [List.map_cons, runEv, step]
        exact ih _ u (by rw [isHealthyOf_recordSuccess]; exact h)
  · intro th tmo s e u hfalse htrue
    cases e with
    | success u0 =>
        rw [show step th tmo s (Ev.success u0) = recordSuccess s u0 from rfl,
          isHealthyOf_recordSuccess, hfalse] at htrue
        exact absurd htrue (by simp)
    | failure u0 now =>
        rw [show step th tmo s (Ev.failure u0 now) = recordFailure th tmo s u0 now from rfl,
          isHealthyOf_recordFailure] at htrue
        by_cases hu : u = u0
        · rw [if_pos hu, hfalse] at htrue
          exact absurd htrue (by simp)
        · rw [if_neg hu, hfalse] at htrue
          exact absurd htrue (by simp)
    | probe u0 ok lat now =>
        rw [show step th tmo s (Ev.probe u0 ok lat now) = probeEndpoint s u0 ok lat now from rfl,
          isHealthyOf_probe] at htrue
        by_cases hu : u = u0
        · rw [if_pos hu] at htrue
          have hok : ok = true := by
            have := Option.some.inj htrue
            exact this
          exact ⟨lat, now, by rw [hu, hok]⟩
        · rw [if_neg hu, hfalse] at htrue
          exact absurd htrue (by simp)

/-- Witness for C10: the unhealthy endpoint A stays unhealthy after two
further successful requests. -/
theorem C10_witness :
    isHealthyOf (runEv 5 60000 stateUnhealthyA ([urlA, urlA].map Ev.success)) urlA
      = some false :=
  C10_record_success_frame.2.1 5 60000 [urlA, urlA] stateUnhealthyA urlA (by decide)

/-! ### C4 -/

/-- The success-rate bookkeeping invariant of one stats record. -/
def statsInvariant (st : Stats) : Prop :=
  (st.totalRequests = 0 → st.successRate = 100)
  ∧ (0 < st.totalRequests →
      st.successRate
        = 100 * ((st.totalRequests : ℚ) - st.failedRequests) / st.totalRequests)

theorem statsInvariant_initStats : statsInvariant initStats := by
  constructor
  · intro _; rfl
  · intro h; exact absurd h (by simp [initStats])

theorem statsInvariant_succStats (st : Stats) : statsInvariant (succStats st) := by
  constructor
  · intro h; exact absurd h (by simp [succStats])
  · intro _
    show (((st.totalRequests + 1 : Nat) : ℚ) - st.failedRequests)
        / ((st.totalRequests + 1 : Nat) : ℚ) * 100
      = 100 * ((((st.totalRequests + 1 : Nat) : ℚ)) - st.failedRequests)
        / ((st.totalRequests + 1 : Nat) : ℚ)
    ring

theorem statsInvariant_failStats (st : Stats) : statsInvariant (failStats st) := by
  constructor
  · intro h; exact absurd h (by simp [failStats])
  · intro _
    show (((st.totalRequests + 1 : Nat) : ℚ) - ((st.failedRequests + 1 : Nat) : ℚ))
        / ((st.totalRequests + 1 : Nat) : ℚ) * 100
      = 100 * ((((st.totalRequests + 1 : Nat) : ℚ)) - ((st.failedRequests + 1 : Nat) : ℚ))
        / ((st.totalRequests + 1 : Nat) : ℚ)
    ring

/-- Every health record of the state satisfies the stats invariant. -/
def healthInvariant (s : ManagerState) : Prop :=
  ∀ hE ∈ s.healthStatus, statsInvariant hE.stats

theorem healthInvariant_initState (cfg : ManagerConfig) : healthInvariant (initState cfg) := by
  intro hE hmem
  rcases List.mem_map.mp hmem with ⟨e, _, rfl⟩
  exact statsInvariant_initStats

theorem healthInvariant_setHealth (l : List EndpointHealth) (h2 : EndpointHealth)
    (hinv : ∀ hE ∈ l, statsInvariant hE.stats) (h2inv : statsInvariant h2.stats) :
    ∀ hE ∈ setHealth l h2, statsInvariant hE.stats := by
  intro hE hmem
  rcases mem_setHealth l h2 hE hmem with rfl | hmem2
  · exact h2inv
  · exact hinv hE hmem2

theorem healthInvariant_recordSuccess (s : ManagerState) (url : String)
    (hinv : healthInvariant s) : healthInvariant (recordSuccess s url) := by
  intro hE hmem
  cases hg : getHealth s.healthStatus url with
  | none =>
      rw [recordSuccess_healthStatus_none s url hg] at hmem
      exact hinv hE hmem
  | some h =>
      rw [recordSuccess_healthStatus_some s url h hg] at hmem
      exact healthInvariant_setHealth s.healthStatus _ hinv
        (statsInvariant_succStats h.stats) hE hmem

theorem healthInvariant_recordFailure (cbThreshold cbTimeout : Nat) (s : ManagerState)
    (url : String) (now : Nat) (hinv : healthInvariant s) :
    healthInvariant (recordFailure cbThreshold cbTimeout s url now) := by
  intro hE hmem
  cases hg : getHealth s.healthStatus url with
  | none =>
      rw [recordFailure_healthStatus_none cbThreshold cbTimeout s url now hg] at hmem
      exact hinv hE hmem
  | some h =>
      rw [recordFailure_healthStatus_some cbThreshold cbTimeout s url now h hg] at hmem
      exact healthInvariant_setHealth s.healthStatus _ hinv
        (statsInvariant_failStats h.stats) hE hmem

theorem healthInvariant_probe (s : ManagerState) (url : String) (ok : Bool) (lat now : Nat)
    (hinv : healthInvariant s) : healthInvariant (probeEndpoint s url ok lat now) := by
  intro hE hmem
  rw [show (probeEndpoint s url ok lat now).healthStatus
      = setHealth s.healthStatus
          { url := url, isHealthy := ok, lastChecked := now,
            latency := if ok then lat else 0, hasError := !ok,
            stats := ((getHealth s.healthStatus url).map (fun h => h.stats)).getD initStats }
      from rfl] at hmem
  refine healthInvariant_setHealth s.healthStatus _ hinv ?_ hE hmem
  show statsInvariant (((getHealth s.healthStatus url).map (fun h => h.stats)).getD initStats)
  cases hg : getHealth s.healthStatus url with
  | none => simpa [hg] using statsInvariant_initStats
  | some h2 => simpa [hg] using hinv h2 (getHealth_mem _ _ _ hg)

theorem healthInvariant_step (cbThreshold cbTimeout : Nat) (s : ManagerState) (e : Ev)
    (hinv : healthInvariant s) : healthInvariant (step cbThreshold cbTimeout s e) := by
  cases e with
  | success url => exact healthInvariant_recordSuccess s url hinv
  | failure url now => exact healthInvariant_recordFailure cbThreshold cbTimeout s url now hinv
  | probe url ok lat now => exact healthInvariant_probe s url ok lat now hinv

theorem healthInvariant_runEv (cbThreshold cbTimeout : Nat) :
    ∀ (evs : List Ev) (s : ManagerState), healthInvariant s →
      healthInvariant (runEv cbThreshold cbTimeout s evs) := by
  intro evs
  induction evs with
  | nil => intro s h; exact h
  | cons e es ih =>
      intro s h
      exact ih _ (healthInvariant_step cbThreshold cbTimeout s e h)

/-- C4: along every event sequence (requests and probes interleaved)
from the constructed state, every endpoint's statistics satisfy
`successRate = 100 * (totalRequests - failedRequests) / totalRequests`
when `totalRequests > 0`, and `successRate = 100` when
`totalRequests = 0`. -/
theorem C4_success_rate_invariant :
    ∀ (cbThreshold cbTimeout : Nat) (cfg : ManagerConfig) (evs : List Ev)
      (hE : EndpointHealth),
      hE ∈ (runEv cbThreshold cbTimeout (initState cfg) evs).healthStatus →
      (hE.stats.totalRequests = 0 → hE.stats.successRate = 100)
      ∧ (0 < hE.stats.totalRequests →
          hE.stats.successRate
            = 100 * ((hE.stats.totalRequests : ℚ) - hE.stats.failedRequests)
                / hE.stats.totalRequests) := by
  intro th tmo cfg evs hE hmem
  exact healthInvariant_runEv th tmo evs (initState cfg) (healthInvariant_initState cfg) hE hmem

/-- The health record of endpoint A after one successful request from the
fresh state. -/
def healthAfterSuccess : EndpointHealth :=
  { initHealth urlA with stats := succStats initStats }

/-- Witness for C4 at a concrete run. -/
theorem C4_witness :
    (healthAfterSuccess.stats.totalRequests = 0 → healthAfterSuccess.stats.successRate = 100)
    ∧ (0 < healthAfterSuccess.stats.totalRequests →
        healthAfterSuccess.stats.successRate
          = 100 * ((healthAfterSuccess.stats.totalRequests : ℚ)
              - healthAfterSuccess.stats.failedRequests)
              / healthAfterSuccess.stats.totalRequests) :=
  C4_success_rate_invariant 5 60000 cfgA [Ev.success urlA] healthAfterSuccess (by
    show healthAfterSuccess ∈ (recordSuccess (initState cfgA) urlA).healthStatus
    rw [recordSuccess_healthStatus_some (initState cfgA) urlA (initHealth urlA) (by decide)]
    exact getHealth_mem _ _ _ (getHealth_setHealth_self (initState cfgA).healthStatus
      { initHealth urlA with stats := succStats (initHealth urlA).stats }))

/-! ### C2 -/

/-- C2: after construction the health map covers exactly the configured
endpoint urls; and whenever some healthy endpoint other than the failed
url exists, `switchToHealthyEndpoint` selects a healthy minimum-latency
endpoint different from the failed url, from the health map's url set. -/
theorem C2_failover_lowest_latency :
    (∀ cfg : ManagerConfig,
        (initState cfg).healthStatus.map (fun h => h.url) = cfg.endpoints.map (fun e => e.url))
    ∧ (∀ (s : ManagerState) (failedUrl : String),
        (∃ hE ∈ s.healthStatus, hE.isHealthy = true ∧ hE.url ≠ failedUrl) →
        (switchToHealthyEndpoint s failedUrl).currentEndpoint ≠ failedUrl
        ∧ (switchToHealthyEndpoint s failedUrl).currentEndpoint
            ∈ s.healthStatus.map (fun h => h.url)
        ∧ ∃ hE ∈ s.healthStatus,
            hE.url = (switchToHealthyEndpoint s failedUrl).currentEndpoint
            ∧ hE.isHealthy = true
            ∧ ∀ hE2 ∈ s.healthStatus, hE2.isHealthy = true → hE2.url ≠ failedUrl →
                hE.latency ≤ hE2.latency) := by
  constructor
  · intro cfg
    rw [show (initState cfg).healthStatus = cfg.endpoints.map (fun e => initHealth e.url)
        from rfl, List.map_map]
    rfl
  · intro s failedUrl hex
    obtain ⟨hW, hWmem, hWhealthy, hWne⟩ := hex
    have hWfilter : hW ∈ s.healthStatus.filter (fun h => h.isHealthy && h.url != failedUrl) := by
      rw [List.mem_filter]
      exact ⟨hWmem, by simp [hWhealthy, hWne]⟩
    have hperm : (failoverCandidates s failedUrl).Perm
        (s.healthStatus.filter (fun h => h.isHealthy && h.url != failedUrl)) :=
      List.perm_insertionSort _ _
    have hWsort : hW ∈ failoverCandidates s failedUrl := hperm.mem_iff.mpr hWfilter
    obtain ⟨h0, rest, hcons⟩ : ∃ h0 rest, failoverCandidates s failedUrl = h0 :: rest := by
      cases hc : failoverCandidates s failedUrl with
      | nil => rw [hc] at hWsort; cases hWsort
      | cons a b => exact ⟨a, b, rfl⟩
    have hswitch := switchToHealthyEndpoint_eq_cons s failedUrl h0 rest hcons
    have h0filter : h0 ∈ s.healthStatus.filter (fun h => h.isHealthy && h.url != failedUrl) :=
      hperm.mem_iff.mp (hcons ▸ List.mem_cons_self h0 rest)
    rcases List.mem_filter.mp h0filter with ⟨h0mem, h0cond⟩
    have h0and : h0.isHealthy = true ∧ (h0.url != failedUrl) = true := by simpa using h0cond
    have h0healthy : h0.isHealthy = true := h0and.1
    have h0ne : h0.url ≠ failedUrl := by simpa using h0and.2
    refine ⟨?_, ?_, ?_⟩
    · rw [hswitch]
      exact h0ne
    · rw [hswitch]
      exact List.mem_map_of_mem _ h0mem
    · refine ⟨h0, h0mem, by rw [hswitch], h0healthy, ?_⟩
      intro hE2 hE2mem hE2h hE2ne
      have hE2f : hE2 ∈ s.healthStatus.filter (fun h => h.isHealthy && h.url != failedUrl) := by
        rw [List.mem_filter]
        exact ⟨hE2mem, by simp [hE2h, hE2ne]⟩
      have hE2sort : hE2 ∈ failoverCandidates s failedUrl := hperm.mem_iff.mpr hE2f
      rw [hcons] at hE2sort
      rcases List.mem_cons.mp hE2sort with rfl | hE2rest
      · exact le_rfl
      · have hsorted : List.Sorted (fun a b : EndpointHealth => a.latency ≤ b.latency)
            (failoverCandidates s failedUrl) :=
          List.sorted_insertionSort (fun a b : EndpointHealth => a.latency ≤ b.latency) _
        rw [hcons] at hsorted
        exact (List.sorted_cons.mp hsorted).1 hE2 hE2rest

/-- Witness for C2: from the probed two-endpoint state, failing over
from A selects an endpoint that is neither A nor outside the map. -/
theorem C2_witness :
    (switchToHealthyEndpoint stateProbedAB urlA).currentEndpoint ≠ urlA
    ∧ (switchToHealthyEndpoint stateProbedAB urlA).currentEndpoint
        ∈ stateProbedAB.healthStatus.map (fun h => h.url) := by
  have h := C2_failover_lowest_latency.2 stateProbedAB urlA (by decide)
  exact ⟨h.1, h.2.1⟩

/-! ### C1: circuit-breaker lemmas -/

theorem failuresOf_recordSuccess (s : ManagerState) (url u : String) :
    failuresOf (recordSuccess s url) u = if u = url then 0 else failuresOf s u := by
  unfold failuresOf
  rw [show (recordSuccess s url).circuitBreakers
      = s.circuitBreakers.map
          (fun x => if x.1 = url then (x.1, { x.2 with failures := 0 }) else x) from rfl]
  rw [getBreaker_resetMap]
  by_cases hu : u = url
  · rw [if_pos hu, if_pos hu]
    cases getBreaker s.circuitBreakers u <;> rfl
  · rw [if_neg hu, if_neg hu]

theorem failuresOf_recordFailure_self (cbThreshold cbTimeout : Nat) (s : ManagerState)
    (url : String) (now : Nat) :
    failuresOf (recordFailure cbThreshold cbTimeout s url now) url
      = nextFailures cbTimeout ((getBreaker s.circuitBreakers url).getD ⟨0, 0⟩) now := by
  unfold failuresOf
  rw [recordFailure_circuitBreakers, getBreaker_setBreaker_self]
  rfl

theorem failuresOf_recordFailure_ne (cbThreshold cbTimeout : Nat) (s : ManagerState)
    (url u : String) (now : Nat) (hne : u ≠ url) :
    failuresOf (recordFailure cbThreshold cbTimeout s url now) u = failuresOf s u := by
  unfold failuresOf
  rw [recordFailure_circuitBreakers, getBreaker_setBreaker_ne _ _ _ _ hne]

theorem failuresOf_probe (s : ManagerState) (url : String) (ok : Bool) (lat now : Nat)
    (u : String) : failuresOf (probeEndpoint s url ok lat now) u = failuresOf s u := rfl

theorem nextFailures_le (cbTimeout : Nat) (c : Circuit) (now : Nat) :
    nextFailures cbTimeout c now ≤ c.failures + 1 := by
  unfold nextFailures
  split <;> omega

theorem getBreaker_initState (cfg : ManagerConfig) (url : String) :
    (getBreaker (initState cfg).circuitBreakers url).getD ⟨0, 0⟩ = ⟨0, 0⟩ := by
  rw [show (initState cfg).circuitBreakers
      = cfg.endpoints.map (fun e => ((e.url : String), (⟨0, 0⟩ : Circuit))) from rfl]
  induction cfg.endpoints with
  | nil => rfl
  | cons e es ih =>
      rw [List.map_cons, getBreaker_cons]
      by_cases he : e.url = url
      · rw [if_pos he]
        rfl
      · rw [if_neg he]
        exact ih

theorem failuresOf_initState (cfg : ManagerConfig) (url : String) :
    failuresOf (initState cfg) url = 0 := by
  unfold failuresOf
  rw [getBreaker_initState]

theorem runTrips_cons (cbThreshold cbTimeout : Nat) (s : ManagerState) (e : Ev)
    (es : List Ev) :
    runTrips cbThreshold cbTimeout s (e :: es)
      = ((match e with
          | .failure url now => (recordFailureT cbThreshold cbTimeout s url now).2
          | _ => false)
        || runTrips cbThreshold cbTimeout (step cbThreshold cbTimeout s e) es) := rfl

theorem consecCount_cons (url : String) (n0 : Nat) (e : Ev) (es : List Ev) :
    consecCount url n0 (e :: es) = consecCount url (consecStep url n0 e) es := rfl

/-- The run never trips while every endpoint's breaker counter stays
bounded by its consecutive-failure count, itself always below the
threshold. -/
theorem runTrips_lt_threshold (cbThreshold cbTimeout : Nat) :
    ∀ (evs : List Ev) (s : ManagerState) (b : String → Nat),
      (∀ url, failuresOf s url ≤ b url) →
      (∀ url n, consecCount url (b url) (evs.take n) < cbThreshold) →
      runTrips cbThreshold cbTimeout s evs = false := by
  intro evs
  induction evs with
  | nil => intro s b _ _; rfl
  | cons e es ih =>
      intro s b hb hcons
      rw [runTrips_cons, Bool.or_eq_false_iff]
      constructor
      · cases e with
        | success url => rfl
        | probe url ok lat now => rfl
        | failure url now =>
            show (recordFailureT cbThreshold cbTimeout s url now).2 = false
            have hbound : nextFailures cbTimeout
                ((getBreaker s.circuitBreakers url).getD ⟨0, 0⟩) now ≤ b url + 1 := by
              have h1 := nextFailures_le cbTimeout
                ((getBreaker s.circuitBreakers url).getD ⟨0, 0⟩) now
              have h2 := hb url
              unfold failuresOf at h2
              omega
            have hc1 := hcons url 1
            rw [List.take_succ_cons, List.take_zero, consecCount_cons] at hc1
            have hstep : consecStep url (b url) (Ev.failure url now) = b url + 1 := by
              simp [consecStep]
            rw [hstep] at hc1
            have hlt : nextFailures cbTimeout
                ((getBreaker s.circuitBreakers url).getD ⟨0, 0⟩) now < cbThreshold := by
              have hcc : consecCount url (b url + 1) [] = b url + 1 := rfl
              rw [hcc] at hc1
              omega
            cases htr : (recordFailureT cbThreshold cbTimeout s url now).2 with
            | false => rfl
            | true =>
                exfalso
                have hth := (recordFailureT_trips_iff cbThreshold cbTimeout s url now).mp htr
                omega
      · apply ih (step cbThreshold cbTimeout s e) (fun u2 => consecStep u2 (b u2) e)
        · intro u2
          cases e with
          | success url =>
              rw [show step cbThreshold cbTimeout s (Ev.success url) = recordSuccess s url
                  from rfl, failuresOf_recordSuccess]
              simp only [consecStep]
              by_cases hu : u2 = url
              · rw [if_pos hu, if_pos hu.symm]
              · rw [if_neg hu, if_neg (fun hc => hu hc.symm)]
                exact hb u2
          | failure url now =>
              rw [show step cbThreshold cbTimeout s (Ev.failure url now)
                  = recordFailure cbThreshold cbTimeout s url now from rfl]
              simp only [consecStep]
              by_cases hu : u2 = url
              · subst hu
                rw [failuresOf_recordFailure_self, if_pos rfl]
                have h1 := nextFailures_le cbTimeout
                  ((getBreaker s.circuitBreakers u2).getD ⟨0, 0⟩) now
                have h2 := hb u2
                unfold failuresOf at h2
                omega
              · rw [failuresOf_recordFailure_ne cbThreshold cbTimeout s url u2 now hu,
                  if_neg (fun hc => hu hc.symm)]
                exact hb u2
          | probe url ok lat now =>
              rw [show step cbThreshold cbTimeout s (Ev.probe url ok lat now)
                  = probeEndpoint s url ok lat now from rfl, failuresOf_probe]
              simp only [consecStep]
              exact hb u2
        · intro u2 n
          have h := hcons u2 (n + 1)
          rw [List.take_succ_cons, consecCount_cons] at h
          exact h

theorem nextFailures_same_time (cbTimeout f t : Nat) :
    nextFailures cbTimeout ⟨f, t⟩ t = f + 1 := by
  show (if t - t > cbTimeout then 0 else f) + 1 = f + 1
  have h : ¬ (t - t > cbTimeout) := by omega
  rw [if_neg h]

theorem nextFailures_from_zero (cbTimeout t : Nat) :
    nextFailures cbTimeout ⟨0, 0⟩ t = 1 := by
  show (if t - 0 > cbTimeout then 0 else 0) + 1 = 1
  split <;> rfl

theorem breaker_after_failure (cbThreshold cbTimeout : Nat) (s : ManagerState) (url : String)
    (t f : Nat) (hf : (getBreaker s.circuitBreakers url).getD ⟨0, 0⟩ = ⟨f, t⟩) :
    (getBreaker (recordFailure cbThreshold cbTimeout s url t).circuitBreakers url).getD ⟨0, 0⟩
      = ⟨f + 1, t⟩ := by
  rw [recordFailure_circuitBreakers, getBreaker_setBreaker_self]
  show (⟨nextFailures cbTimeout ((getBreaker s.circuitBreakers url).getD ⟨0, 0⟩) t, t⟩ : Circuit)
    = ⟨f + 1, t⟩
  rw [hf, nextFailures_same_time]

theorem runTrips_replicate (cbThreshold cbTimeout : Nat) (url : String) (t : Nat) :
    ∀ (k : Nat) (s : ManagerState) (f : Nat),
      (getBreaker s.circuitBreakers url).getD ⟨0, 0⟩ = ⟨f, t⟩ →
      (runTrips cbThreshold cbTimeout s (List.replicate k (Ev.failure url t)) = true
        ↔ 1 ≤ k ∧ cbThreshold ≤ f + k) := by
  intro k
  induction k with
  | zero =>
      intro s f _
      constructor
      · intro h; exact absurd h (by simp [List.replicate, runTrips])
      · intro h; omega
  | succ k ih =>
      intro s f hf
      rw [List.replicate_succ, runTrips_cons]
      show ((recordFailureT cbThreshold cbTimeout s url t).2
          || runTrips cbThreshold cbTimeout (recordFailure cbThreshold cbTimeout s url t)
              (List.replicate k (Ev.failure url t))) = true
        ↔ 1 ≤ k + 1 ∧ cbThreshold ≤ f + (k + 1)
      have htrip1 : (recordFailureT cbThreshold cbTimeout s url t).2 = true
          ↔ cbThreshold ≤ f + 1 := by
        rw [recordFailureT_trips_iff, hf, nextFailures_same_time]
      have ihk := ih (recordFailure cbThreshold cbTimeout s url t) (f + 1)
        (breaker_after_failure cbThreshold cbTimeout s url t f hf)
      rw [Bool.or_eq_true, htrip1, ihk]
      omega

theorem trips_at_threshold (cbThreshold cbTimeout : Nat) (hth : 0 < cbThreshold)
    (cfg : ManagerConfig) (url : String) (t : Nat) :
    ∀ k, (runTrips cbThreshold cbTimeout (initState cfg)
        (List.replicate k (Ev.failure url t)) = true ↔ cbThreshold ≤ k) := by
  intro k
  cases k with
  | zero =>
      constructor
      · intro h; exact absurd h (by simp [List.replicate, runTrips])
      · intro h; exact absurd h (by omega)
  | succ k =>
      rw [List.replicate_succ, runTrips_cons]
      show ((recordFailureT cbThreshold cbTimeout (initState cfg) url t).2
          || runTrips cbThreshold cbTimeout
              (recordFailure cbThreshold cbTimeout (initState cfg) url t)
              (List.replicate k (Ev.failure url t))) = true
        ↔ cbThreshold ≤ k + 1
      have htrip1 : (recordFailureT cbThreshold cbTimeout (initState cfg) url t).2 = true
          ↔ cbThreshold ≤ 1 := by
        rw [recordFailureT_trips_iff, getBreaker_initState, nextFailures_from_zero]
      have hb1 : (getBreaker
          (recordFailure cbThreshold cbTimeout (initState cfg) url t).circuitBreakers
          url).getD ⟨0, 0⟩ = ⟨1, t⟩ := by
        rw [recordFailure_circuitBreakers, getBreaker_setBreaker_self]
        show (⟨nextFailures cbTimeout
            ((getBreaker (initState cfg).circuitBreakers url).getD ⟨0, 0⟩) t, t⟩ : Circuit)
          = ⟨1, t⟩
        rw [getBreaker_initState, nextFailures_from_zero]
      have ihk := runTrips_replicate cbThreshold cbTimeout url t k
        (recordFailure cbThreshold cbTimeout (initState cfg) url t) 1 hb1
      rw [Bool.or_eq_true, htrip1, ihk]
      omega

theorem filter_setHealth_same_url (l : List EndpointHealth) (h2 : EndpointHealth) (u : String)
    (hu : h2.url = u) :
    (setHealth l h2).filter (fun h => h.isHealthy && h.url != u)
      = l.filter (fun h => h.isHealthy && h.url != u) := by
  induction l with
  | nil => simp [setHealth, List.filter_cons, hu]
  | cons x xs ih =>
      rw [setHealth_cons]
      by_cases hx : x.url = h2.url
      · rw [if_pos hx]
        have hpx : (x.isHealthy && (x.url != u)) = false := by
          rw [hx, hu]
          simp
        have hph2 : (h2.isHealthy && (h2.url != u)) = false := by
          rw [hu]
          simp
        simp only [List.filter_cons, hpx, hph2]
        simp
      · rw [if_neg hx]
        simp only [List.filter_cons]
        rw [ih]

theorem failoverCandidates_healthStatus_eq (s1 s2 : ManagerState) (u : String)
    (h : s1.healthStatus = s2.healthStatus) :
    failoverCandidates s1 u = failoverCandidates s2 u := by
  unfold failoverCandidates
  rw [h]

theorem failoverCandidates_recordFailure (cbThreshold cbTimeout : Nat) (s : ManagerState)
    (url : String) (now : Nat) :
    failoverCandidates (recordFailure cbThreshold cbTimeout s url now) url
      = failoverCandidates s url := by
  unfold failoverCandidates
  cases hg : getHealth s.healthStatus url with
  | none => rw [recordFailure_healthStatus_none cbThreshold cbTimeout s url now hg]
  | some h =>
      rw [recordFailure_healthStatus_some cbThreshold cbTimeout s url now h hg]
      rw [filter_setHealth_same_url s.healthStatus
        { h with stats := failStats h.stats, isHealthy := false, hasError := true }
        url (getHealth_url s.healthStatus url h hg)]

theorem switch_current_of_candidates (s1 sref : ManagerState) (u : String)
    (hh : failoverCandidates s1 u = failoverCandidates sref u) :
    (switchToHealthyEndpoint s1 u).currentEndpoint
      = match failoverCandidates sref u with
        | [] => s1.currentEndpoint
        | h :: _ => h.url := by
  cases hc : failoverCandidates sref u with
  | nil => rw [switchToHealthyEndpoint_eq_nil s1 u (hh.trans hc)]
  | cons h rest => rw [switchToHealthyEndpoint_eq_cons s1 u h rest (hh.trans hc)]

theorem recordFailure_current_of_trip (cbThreshold cbTimeout : Nat) (s : ManagerState)
    (url : String) (now : Nat)
    (htrip : (recordFailureT cbThreshold cbTimeout s url now).2 = true) :
    (recordFailure cbThreshold cbTimeout s url now).currentEndpoint
      = match failoverCandidates s url with
        | [] => s.currentEndpoint
        | h :: _ => h.url := by
  have hcond : cbThreshold ≤ nextFailures cbTimeout
      ((getBreaker s.circuitBreakers url).getD ⟨0, 0⟩) now :=
    (recordFailureT_trips_iff cbThreshold cbTimeout s url now).mp htrip
  have hcand : failoverCandidates (recordFailure cbThreshold cbTimeout s url now) url
      = failoverCandidates s url :=
    failoverCandidates_recordFailure cbThreshold cbTimeout s url now
  simp only [recordFailure, recordFailureT]
  split
  · next hc2 =>
      exact switch_current_of_candidates _ s url
        ((failoverCandidates_healthStatus_eq _
            (recordFailure cbThreshold cbTimeout s url now) url
            (by rw [recordFailure_healthStatus])).trans hcand)
  · next hc2 => exact absurd hcond hc2

theorem recordFailure_current_of_no_trip (cbThreshold cbTimeout : Nat) (s : ManagerState)
    (url : String) (now : Nat)
    (hno : (recordFailureT cbThreshold cbTimeout s url now).2 = false) :
    (recordFailure cbThreshold cbTimeout s url now).currentEndpoint = s.currentEndpoint := by
  have hcond : ¬ cbThreshold ≤ nextFailures cbTimeout
      ((getBreaker s.circuitBreakers url).getD ⟨0, 0⟩) now := by
    intro hc
    rw [(recordFailureT_trips_iff cbThreshold cbTimeout s url now).mpr hc] at hno
    exact Bool.noConfusion hno
  simp only [recordFailure, recordFailureT]
  split
  · next hc2 => exact absurd hc2 hcond
  · rfl

theorem retrip_stable (cbThreshold cbTimeout : Nat) (s : ManagerState) (url : String)
    (t1 t2 : Nat) (htrip : (recordFailureT cbThreshold cbTimeout s url t1).2 = true) :
    (recordFailure cbThreshold cbTimeout (recordFailure cbThreshold cbTimeout s url t1)
        url t2).currentEndpoint
      = (recordFailure cbThreshold cbTimeout s url t1).currentEndpoint := by
  set s1 := recordFailure cbThreshold cbTimeout s url t1 with hs1
  cases htr2 : (recordFailureT cbThreshold cbTimeout s1 url t2).2 with
  | false => exact recordFailure_current_of_no_trip cbThreshold cbTimeout s1 url t2 htr2
  | true =>
      have h2 := recordFailure_current_of_trip cbThreshold cbTimeout s1 url t2 htr2
      have h1 := recordFailure_current_of_trip cbThreshold cbTimeout s url t1 htrip
      have hcand : failoverCandidates s1 url = failoverCandidates s url := by
        rw [hs1]
        exact failoverCandidates_recordFailure cbThreshold cbTimeout s url t1
      rw [h2, hcand]
      cases hc : failoverCandidates s url with
      | nil => simp
      | cons h rest =>
          rw [hc] at h1
          simpa using h1.symm

/-! ### C1 -/

/-- C1: `recordSuccess` resets the breaker's consecutive-failure counter
to 0; a failure trips the circuit (invokes failover for that url)
exactly when the updated counter has reached the threshold; with
interleaved successes keeping every consecutive-failure run below the
threshold, no trip ever occurs regardless of the cumulative failure
count; from the fresh state, a run of k consecutive failures trips
exactly when k reaches the threshold; and once a failure has tripped,
a further failure of the same url (re-trip or not) leaves the selected
endpoint unchanged — failover takes effect once per trip. -/
theorem C1_circuit_trip_semantics (cbThreshold cbTimeout : Nat) :
    (∀ (s : ManagerState) (url : String), failuresOf (recordSuccess s url) url = 0)
    ∧ (∀ (s : ManagerState) (url : String) (now : Nat),
        ((recordFailureT cbThreshold cbTimeout s url now).2 = true
          ↔ cbThreshold ≤ failuresOf (recordFailure cbThreshold cbTimeout s url now) url))
    ∧ (∀ (cfg : ManagerConfig) (evs : List Ev),
        (∀ url n, consecFails url (evs.take n) < cbThreshold) →
        runTrips cbThreshold cbTimeout (initState cfg) evs = false)
    ∧ (0 < cbThreshold → ∀ (cfg : ManagerConfig) (url : String) (t k : Nat),
        (runTrips cbThreshold cbTimeout (initState cfg)
            (List.replicate k (Ev.failure url t)) = true ↔ cbThreshold ≤ k))
    ∧ (∀ (s : ManagerState) (url : String) (t1 t2 : Nat),
        (recordFailureT cbThreshold cbTimeout s url t1).2 = true →
        (recordFailure cbThreshold cbTimeout
            (recordFailure cbThreshold cbTimeout s url t1) url t2).currentEndpoint
          = (recordFailure cbThreshold cbTimeout s url t1).currentEndpoint) := by
  refine ⟨?_, ?_, ?_, ?_, ?_⟩
  · intro s url
    rw [failuresOf_recordSuccess, if_pos rfl]
  · intro s url now
    rw [recordFailureT_trips_iff, failuresOf_recordFailure_self]
  · intro cfg evs hcons
    exact runTrips_lt_threshold cbThreshold cbTimeout evs (initState cfg) (fun _ => 0)
      (fun url => le_of_eq (failuresOf_initState cfg url))
      (fun url n => hcons url n)
  · intro hth cfg url t k
    exact trips_at_threshold cbThreshold cbTimeout hth cfg url t k
  · intro s url t1 t2 htrip
    exact retrip_stable cbThreshold cbTimeout s url t1 t2 htrip

/-- Witness for C1: with threshold 5, five consecutive failures of
endpoint A from the fresh state do trip the circuit. -/
theorem C1_witness :
    runTrips 5 60000 (initState cfgA) (List.replicate 5 (Ev.failure urlA 0)) = true :=
  ((C1_circuit_trip_semantics 5 60000).2.2.2.1 (by decide) cfgA urlA 0 5).mpr (by decide)

end SolGuard
